import Mathlib

/-!
# Verification of the hour-tracking aggregation and logging engine

Shallow embedding of `hour_tracking_27082025.py`.

Conventions of the embedding:
* Hours are modelled as exact rationals (`ℚ`); the Python code uses IEEE
  floats, whose rounding is outside the claims checked here except where a
  claim explicitly concerns float comparison semantics (NaN).
* Calendar dates inside the aggregation pipeline are modelled as integer day
  numbers with day 0 = 1970-01-01 (a Thursday), the epoch used by the
  `pandas` timestamps the code builds with `pd.to_datetime`.  Mondays are
  exactly the day numbers congruent to 4 modulo 7.
* A storage unit (one `*_hours.csv` file) is modelled as
  `Option (List HourRecord)`: `none` is a unit whose read raises (corrupt
  file), `some rs` a unit that parses to the record list `rs`.
-/

unseal Rat.add Rat.mul Rat.sub Rat.inv

namespace HourTracking

/-- One logged work session, the row shape of the merged dataframe
(`name`, `date`, `hours`, `subject`). -/
structure HourRecord where
  person : String
  date : Int
  hours : ℚ
  subject : String
deriving DecidableEq, Repr

/-- Day number of a civil date (days since 1970-01-01), the standard
days-from-civil calculation used to state concrete dates in theorems. -/
def daysFromCivil (y m d : Int) : Int :=
  let y' : Int := if m ≤ 2 then y - 1 else y
  let era : Int := y' / 400
  let yoe : Int := y' - era * 400
  let mp : Int := (m + 9) % 12
  let doy : Int := (153 * mp + 2) / 5 + d - 1
  let doe : Int := yoe * 365 + yoe / 4 - yoe / 100 + doy
  era * 146097 + doe - 719468

/-- `master_df['hours'].sum()`: total of the `hours` column. -/
def sumHours (rs : List HourRecord) : ℚ :=
  (rs.map HourRecord.hours).sum

/-- `master_df['hours'].sum()` over the whole merged dataset. -/
def totalHours (rs : List HourRecord) : ℚ := sumHours rs

/-- `master_df.groupby(key)['hours'].sum()`: the distinct key values,
sorted ascending (pandas `groupby` sorts group keys), each paired with the
sum of `hours` over the rows carrying that key. -/
def groupSums (key : HourRecord → String) (rs : List HourRecord) :
    List (String × ℚ) :=
  ((rs.map key).dedup.insertionSort (· ≤ ·)).map
    (fun k => (k, sumHours (rs.filter (fun r => key r = k))))

/-- `master_df.groupby('name')['hours'].sum()`. -/
def hoursByPerson (rs : List HourRecord) : List (String × ℚ) :=
  groupSums HourRecord.person rs

/-- `master_df.groupby('subject')['hours'].sum()`. -/
def hoursBySubject (rs : List HourRecord) : List (String × ℚ) :=
  groupSums HourRecord.subject rs

/-- Day numbers of Mondays: day 0 = 1970-01-01 is a Thursday, so Mondays
are the days congruent to 4 modulo 7. -/
def isMonday (z : Int) : Prop := z % 7 = 4

instance (z : Int) : Decidable (isMonday z) := by
  unfold isMonday; infer_instance

/-- The week label `resample('W-MON', label='left')` assigns to a date.
Pandas anchors `W-MON` bins as right-closed intervals ending on a Monday,
`(Monday, next Monday]`, and `label='left'` labels each bin with its left
edge; so a date is labelled with the greatest Monday strictly before it
(a Monday-dated row is labelled with the previous Monday). -/
def bucketLabel (z : Int) : Int :=
  (z - 1) - ((z - 5) % 7)

/-- The bucket labels of all records of a dataset. -/
def weekLabels (rs : List HourRecord) : List Int :=
  rs.map (fun r => bucketLabel r.date)

/-- `master_df.set_index('date').resample('W-MON', label='left')['hours'].sum()`:
one entry per weekly bin from the bin of the earliest record to the bin of
the latest record, consecutive bins 7 days apart, each entry carrying the
sum of `hours` over the rows falling in that bin (0.0 for bins with no
rows — resample materialises every bin in the span). -/
def weeklySeries (rs : List HourRecord) : List (Int × ℚ) :=
  match weekLabels rs with
  | [] => []
  | L :: Ls =>
      let lo := Ls.foldl min L
      let hi := Ls.foldl max L
      let n := ((hi - lo) / 7).toNat + 1
      (List.range n).map (fun (i : ℕ) =>
        (lo + 7 * (i : Int),
         sumHours (rs.filter (fun r => bucketLabel r.date = lo + 7 * (i : Int)))))

/-- The values the dashboard derives from one merged dataset. -/
structure AggregateReport where
  totalHours : ℚ
  hoursByPerson : List (String × ℚ)
  hoursBySubject : List (String × ℚ)
  weeklySeries : List (Int × ℚ)
deriving DecidableEq, Repr

/-- Lines 240–242 and 262 of the source: compute every derived view from
the same merged dataset. -/
def assembleReport (rs : List HourRecord) : AggregateReport :=
  ⟨totalHours rs, hoursByPerson rs, hoursBySubject rs, weeklySeries rs⟩

/-- `pd.concat(all_data, ignore_index=True)` applied to the record sets
that survived reading: the reading loop appends a dataframe only when it is
non-empty, and `concat` lays the surviving rows end to end. -/
def mergeRecordSets (rss : List (List HourRecord)) : List HourRecord :=
  (rss.filter (fun df => !df.isEmpty)).flatten

/-- `HourTrackerApp.show_dashboard`: `none` models an early return behind a
"No Data" message box (empty file listing, or no file contributed rows);
a unit whose read raises shows a warning box and is skipped
(`except Exception: messagebox.showwarning(...)`), modelled by dropping the
`none` units. -/
def showDashboard (units : List (Option (List HourRecord))) :
    Option AggregateReport :=
  if units.isEmpty then none
  else
    let dfs := units.filterMap id
    let allData := dfs.filter (fun df => !df.isEmpty)
    if allData.isEmpty then none
    else some (assembleReport allData.flatten)

/-! ## Summation infrastructure -/

lemma sumHours_nil : sumHours [] = 0 := rfl

lemma sumHours_cons (r : HourRecord) (rs : List HourRecord) :
    sumHours (r :: rs) = r.hours + sumHours rs := by
  simp [sumHours]

lemma sum_map_add {κ : Type} (f g : κ → ℚ) (ks : List κ) :
    (ks.map (fun k => f k + g k)).sum = (ks.map f).sum + (ks.map g).sum := by
  induction ks with
  | nil => simp
  | cons k ks ih => simp only [List.map_cons, List.sum_cons, ih]; ring

lemma sum_ite_of_not_mem {κ : Type} [DecidableEq κ] (a : κ) (v : ℚ) :
    ∀ ks : List κ, a ∉ ks →
      (ks.map (fun k => if a = k then v else 0)).sum = 0 := by
  intro ks
  induction ks with
  | nil => intro _; simp
  | cons k ks ih =>
      intro h
      have hk : ¬ a = k := fun hak => h (hak ▸ List.mem_cons_self k ks)
      have hks : a ∉ ks := fun hm => h (List.mem_cons_of_mem k hm)
      simp only [List.map_cons, List.sum_cons, if_neg hk, ih hks, zero_add]

lemma sum_ite_single {κ : Type} [DecidableEq κ] (a : κ) (v : ℚ) :
    ∀ ks : List κ, ks.Nodup → a ∈ ks →
      (ks.map (fun k => if a = k then v else 0)).sum = v := by
  intro ks
  induction ks with
  | nil => intro _ h; cases h
  | cons k ks ih =>
      intro hnd hm
      rcases List.mem_cons.mp hm with h | h
      · have hnotin : a ∉ ks := h ▸ (List.nodup_cons.mp hnd).1
        simp only [List.map_cons, List.sum_cons, if_pos h,
          sum_ite_of_not_mem a v ks hnotin, add_zero]
      · have hk : ¬ a = k := by
          intro hak
          exact (List.nodup_cons.mp hnd).1 (hak ▸ h)
        simp only [List.map_cons, List.sum_cons, if_neg hk,
          ih (List.nodup_cons.mp hnd).2 h, zero_add]

/-- Summing the per-group totals over any duplicate-free list of keys that
covers every record's key recovers the total of the whole dataset. -/
lemma sum_filter_partition {κ : Type} [DecidableEq κ] (key : HourRecord → κ) :
    ∀ (rs : List HourRecord) (ks : List κ), ks.Nodup → (∀ r ∈ rs, key r ∈ ks) →
      (ks.map (fun k => sumHours (rs.filter (fun r => key r = k)))).sum
        = sumHours rs := by
  intro rs
  induction rs with
  | nil => intro ks _ _; simp [sumHours]
  | cons r rest ih =>
      intro ks hnd hcov
      have hsplit : (fun k => sumHours ((r :: rest).filter (fun x => key x = k)))
          = fun k => (if key r = k then r.hours else 0)
              + sumHours (rest.filter (fun x => key x = k)) := by
        funext k
        by_cases h : key r = k
        · simp [List.filter_cons, h, sumHours_cons]
        · simp [List.filter_cons, h]
      rw [hsplit, sum_map_add, sum_ite_single (key r) r.hours ks hnd
            (hcov r (List.mem_cons_self r rest)),
          ih ks hnd (fun x hx => hcov x (List.mem_cons_of_mem r hx)),
          sumHours_cons]

lemma groupSums_keys_nodup (key : HourRecord → String) (rs : List HourRecord) :
    ((rs.map key).dedup.insertionSort (· ≤ ·)).Nodup :=
  (List.perm_insertionSort (· ≤ ·) (rs.map key).dedup).symm.nodup
    (List.nodup_dedup (rs.map key))

lemma groupSums_keys_cover (key : HourRecord → String) (rs : List HourRecord) :
    ∀ r ∈ rs, key r ∈ (rs.map key).dedup.insertionSort (· ≤ ·) := by
  intro r hr
  have : key r ∈ (rs.map key).dedup :=
    List.mem_dedup.mpr (List.mem_map.mpr ⟨r, hr, rfl⟩)
  exact ((List.perm_insertionSort (· ≤ ·) (rs.map key).dedup).symm.mem_iff).mp this

lemma groupSums_total (key : HourRecord → String) (rs : List HourRecord) :
    ((groupSums key rs).map Prod.snd).sum = sumHours rs := by
  unfold groupSums
  rw [List.map_map]
  have hcomp : (Prod.snd ∘ fun k =>
      (k, sumHours (rs.filter (fun r => key r = k))))
      = fun k => sumHours (rs.filter (fun r => key r = k)) := rfl
  rw [hcomp]
  exact sum_filter_partition key rs _ (groupSums_keys_nodup key rs)
    (groupSums_keys_cover key rs)

/-- C3: for every merged dataset (in this embedding every record carries a
person and a subject string), the values of `hoursByPerson` and of
`hoursBySubject` each sum exactly to `totalHours`. -/
theorem grouped_sums_equal_total (rs : List HourRecord) :
    ((hoursByPerson rs).map Prod.snd).sum = totalHours rs ∧
    ((hoursBySubject rs).map Prod.snd).sum = totalHours rs :=
  ⟨groupSums_total HourRecord.person rs, groupSums_total HourRecord.subject rs⟩

/-- Dropping the empty record sets before concatenation does not change
the concatenation. -/
lemma filter_nonempty_flatten (rss : List (List HourRecord)) :
    (rss.filter (fun df => !df.isEmpty)).flatten = rss.flatten := by
  induction rss with
  | nil => rfl
  | cons a l ih =>
      by_cases ha : a.isEmpty
      · have : a = [] := List.isEmpty_iff.mp ha
        simp [List.filter_cons, ha, ih, this]
      · simp [List.filter_cons, ha, ih]

/-- The list of non-empty record sets is empty exactly when the
concatenation of all record sets is empty. -/
lemma filter_nonempty_isEmpty (rss : List (List HourRecord)) :
    (rss.filter (fun df => !df.isEmpty)).isEmpty = rss.flatten.isEmpty := by
  induction rss with
  | nil => rfl
  | cons a l ih =>
      by_cases ha : a.isEmpty
      · have h0 : a = [] := List.isEmpty_iff.mp ha
        simp [List.filter_cons, ha, ih, h0]
      · have h0 : a ≠ [] := fun hh => ha (hh ▸ rfl)
        simp [List.filter_cons, ha, h0]

/-- C7: the merge step is exactly concatenation — every record of every
record set is kept, in order, with no deduplication, and the merged length
is the sum of the per-unit lengths. -/
theorem mergeRecordSets_is_concatenation (rss : List (List HourRecord)) :
    mergeRecordSets rss = rss.flatten ∧
    (mergeRecordSets rss).length = (rss.map List.length).sum := by
  have h : mergeRecordSets rss = rss.flatten := filter_nonempty_flatten rss
  exact ⟨h, by rw [h, List.length_flatten]⟩

/-! ## Weekly bucketing infrastructure -/

lemma bucketLabel_isMonday (z : Int) : bucketLabel z % 7 = 4 := by
  unfold bucketLabel; omega

lemma bucketLabel_lt (z : Int) : bucketLabel z < z := by
  unfold bucketLabel; omega

lemma lt_bucketLabel_add_seven (z : Int) : z ≤ bucketLabel z + 7 := by
  unfold bucketLabel; omega

lemma bucketLabel_greatest (z w : Int) (hw : w % 7 = 4) (hlt : w < z) :
    w ≤ bucketLabel z := by
  unfold bucketLabel; omega

lemma foldl_min_le_init : ∀ (Ls : List Int) (L : Int), Ls.foldl min L ≤ L := by
  intro Ls
  induction Ls with
  | nil => intro L; exact le_refl L
  | cons a Ls ih =>
      intro L
      exact le_trans (ih (min L a)) (min_le_left L a)

lemma foldl_min_le_mem :
    ∀ (Ls : List Int) (L x : Int), x ∈ Ls → Ls.foldl min L ≤ x := by
  intro Ls
  induction Ls with
  | nil => intro L x hx; cases hx
  | cons a Ls ih =>
      intro L x hx
      rcases List.mem_cons.mp hx with h | h
      · subst h
        rw [List.foldl_cons]
        exact le_trans (foldl_min_le_init Ls (min L x)) (min_le_right L x)
      · rw [List.foldl_cons]
        exact ih (min L a) x h

lemma foldl_min_mem :
    ∀ (Ls : List Int) (L : Int), Ls.foldl min L = L ∨ Ls.foldl min L ∈ Ls := by
  intro Ls
  induction Ls with
  | nil => intro L; exact Or.inl rfl
  | cons a Ls ih =>
      intro L
      rcases ih (min L a) with h | h
      · rcases min_cases L a with ⟨hm, _⟩ | ⟨hm, _⟩
        · exact Or.inl (by rw [List.foldl_cons, h, hm])
        · refine Or.inr ?_
          rw [List.foldl_cons, h, hm]
          exact List.mem_cons_self a Ls
      · exact Or.inr (List.mem_cons_of_mem a h)

lemma init_le_foldl_max : ∀ (Ls : List Int) (L : Int), L ≤ Ls.foldl max L := by
  intro Ls
  induction Ls with
  | nil => intro L; exact le_refl L
  | cons a Ls ih =>
      intro L
      exact le_trans (le_max_left L a) (ih (max L a))

lemma mem_le_foldl_max :
    ∀ (Ls : List Int) (L x : Int), x ∈ Ls → x ≤ Ls.foldl max L := by
  intro Ls
  induction Ls with
  | nil => intro L x hx; cases hx
  | cons a Ls ih =>
      intro L x hx
      rcases List.mem_cons.mp hx with h | h
      · subst h
        rw [List.foldl_cons]
        exact le_trans (le_max_right L x) (init_le_foldl_max Ls (max L x))
      · rw [List.foldl_cons]
        exact ih (max L a) x h

lemma foldl_max_mem :
    ∀ (Ls : List Int) (L : Int), Ls.foldl max L = L ∨ Ls.foldl max L ∈ Ls := by
  intro Ls
  induction Ls with
  | nil => intro L; exact Or.inl rfl
  | cons a Ls ih =>
      intro L
      rcases ih (max L a) with h | h
      · rcases max_cases L a with ⟨hm, _⟩ | ⟨hm, _⟩
        · exact Or.inl (by rw [List.foldl_cons, h, hm])
        · refine Or.inr ?_
          rw [List.foldl_cons, h, hm]
          exact List.mem_cons_self a Ls
      · exact Or.inr (List.mem_cons_of_mem a h)

lemma mem_weekLabels_isMonday (rs : List HourRecord) :
    ∀ x ∈ weekLabels rs, x % 7 = 4 := by
  intro x hx
  rcases List.mem_map.mp hx with ⟨r, _, hr⟩
  exact hr ▸ bucketLabel_isMonday r.date

lemma weeklySeries_cons (r : HourRecord) (rest : List HourRecord) :
    weeklySeries (r :: rest) =
      (List.range ((((weekLabels rest).foldl max (bucketLabel r.date)
            - (weekLabels rest).foldl min (bucketLabel r.date)) / 7).toNat + 1)).map
        (fun (i : ℕ) =>
          ((weekLabels rest).foldl min (bucketLabel r.date) + 7 * (i : Int),
           sumHours ((r :: rest).filter (fun x =>
             bucketLabel x.date
               = (weekLabels rest).foldl min (bucketLabel r.date) + 7 * (i : Int))))) :=
  rfl

/-- Every bucket label drawn from a dataset lies in the materialised range
of weekly bins: it is `lo + 7*i` for some bin index `i` below the bin
count. -/
lemma mem_label_range (L : Int) (Ls : List Int) (lab : Int)
    (hmem : lab = L ∨ lab ∈ Ls)
    (hmod : ∀ x, (x = L ∨ x ∈ Ls) → x % 7 = 4) :
    ∃ i : Nat, i < ((Ls.foldl max L - Ls.foldl min L) / 7).toNat + 1 ∧
      lab = Ls.foldl min L + 7 * (i : Int) := by
  have hlo_le : Ls.foldl min L ≤ lab := by
    rcases hmem with h | h
    · exact h ▸ foldl_min_le_init Ls L
    · exact foldl_min_le_mem Ls L lab h
  have hle_hi : lab ≤ Ls.foldl max L := by
    rcases hmem with h | h
    · exact h ▸ init_le_foldl_max Ls L
    · exact mem_le_foldl_max Ls L lab h
  have hlo4 : Ls.foldl min L % 7 = 4 := hmod _ (foldl_min_mem Ls L)
  have hhi4 : Ls.foldl max L % 7 = 4 := hmod _ (foldl_max_mem Ls L)
  have hlab4 : lab % 7 = 4 := hmod _ hmem
  exact ⟨((lab - Ls.foldl min L) / 7).toNat, by omega, by omega⟩

/-- C4: the weekly series sums exactly to `totalHours` — every record falls
in exactly one materialised weekly bin. -/
theorem weeklySeries_sums_to_total (rs : List HourRecord) :
    ((weeklySeries rs).map Prod.snd).sum = totalHours rs := by
  cases rs with
  | nil => rfl
  | cons r rest =>
      have hmod : ∀ x, (x = bucketLabel r.date ∨ x ∈ weekLabels rest) →
          x % 7 = 4 := by
        intro x hx
        rcases hx with h | h
        · exact h ▸ bucketLabel_isMonday r.date
        · exact mem_weekLabels_isMonday rest x h
      have hnd : (((List.range ((((weekLabels rest).foldl max (bucketLabel r.date)
            - (weekLabels rest).foldl min (bucketLabel r.date)) / 7).toNat + 1))).map
            (fun i : ℕ =>
              (weekLabels rest).foldl min (bucketLabel r.date) + 7 * (i : Int))).Nodup := by
        refine List.Nodup.map ?_ (List.nodup_range _)
        intro a b hab
        simp only at hab
        omega
      have hcov : ∀ x ∈ (r :: rest),
          bucketLabel x.date ∈
            ((List.range ((((weekLabels rest).foldl max (bucketLabel r.date)
              - (weekLabels rest).foldl min (bucketLabel r.date)) / 7).toNat + 1))).map
            (fun i : ℕ =>
              (weekLabels rest).foldl min (bucketLabel r.date) + 7 * (i : Int)) := by
        intro x hx
        have hxmem : bucketLabel x.date = bucketLabel r.date ∨
            bucketLabel x.date ∈ weekLabels rest := by
          rcases List.mem_cons.mp hx with h | h
          · exact Or.inl (h ▸ rfl)
          · exact Or.inr (List.mem_map.mpr ⟨x, h, rfl⟩)
        rcases mem_label_range (bucketLabel r.date) (weekLabels rest)
          (bucketLabel x.date) hxmem hmod with ⟨i, hi, hlab⟩
        exact List.mem_map.mpr ⟨i, List.mem_range.mpr hi, hlab.symm⟩
      have hpart := sum_filter_partition (fun x => bucketLabel x.date) (r :: rest)
        _ hnd hcov
      rw [List.map_map] at hpart
      rw [weeklySeries_cons, List.map_map]
      exact hpart

/-! ## Concrete datasets used in counterexamples and witnesses -/

/-- The worked scenario dataset: (Alice, 2025-01-06, 3.0, Meetings),
(Alice, 2025-01-08, 2.0, Meetings), (Bob, 2025-01-06, 5.0, Technical Work);
2025-01-06 is a Monday. -/
def scenarioRecords : List HourRecord :=
  [⟨"Alice", daysFromCivil 2025 1 6, 3, "Meetings"⟩,
   ⟨"Alice", daysFromCivil 2025 1 8, 2, "Meetings"⟩,
   ⟨"Bob", daysFromCivil 2025 1 6, 5, "Technical Work"⟩]

/-- Two records three weeks apart, leaving two weekly bins with no
records between them. -/
def gapRecords : List HourRecord :=
  [⟨"Alice", daysFromCivil 2025 1 1, 1, "Meetings"⟩,
   ⟨"Alice", daysFromCivil 2025 1 22, 2, "Meetings"⟩]

/-- C1 counterexample: on the spec's own scenario the weekly series is not
`[(2025-01-06, 10.0)]`; the two Monday-dated records land in the bin
labelled 2024-12-30, because the `W-MON` bins are right-closed and
`label='left'` names the bin by its left edge.  Even the Monday
2025-01-06 itself is not labelled with itself. -/
theorem scenario_weekly_series_not_monday_on_or_before :
    weeklySeries scenarioRecords ≠ [(daysFromCivil 2025 1 6, 10)] ∧
    bucketLabel (daysFromCivil 2025 1 6) ≠ daysFromCivil 2025 1 6 := by
  decide

/-- C1 (amended): the weekly series attributes each record's hours to the
greatest Monday *strictly before* the record's date (a Monday-dated record
goes to the previous Monday); every series entry's sum is the total of the
records labelled with that entry's week; and on the scenario dataset the
series is `[(2024-12-30, 8.0), (2025-01-06, 2.0)]`. -/
theorem weekly_attribution_previous_monday :
    (∀ z : Int, isMonday (bucketLabel z) ∧ bucketLabel z < z ∧
        z ≤ bucketLabel z + 7 ∧
        ∀ w : Int, isMonday w → w < z → w ≤ bucketLabel z) ∧
    (∀ rs : List HourRecord, ∀ p ∈ weeklySeries rs,
        p.2 = sumHours (rs.filter (fun r => bucketLabel r.date = p.1))) ∧
    weeklySeries scenarioRecords
      = [(daysFromCivil 2024 12 30, 8), (daysFromCivil 2025 1 6, 2)] := by
  refine ⟨?_, ?_, by decide⟩
  · intro z
    exact ⟨bucketLabel_isMonday z, bucketLabel_lt z,
      lt_bucketLabel_add_seven z,
      fun w hw hlt => bucketLabel_greatest z w hw hlt⟩
  · intro rs p hp
    cases rs with
    | nil => cases hp
    | cons r rest =>
        rw [weeklySeries_cons] at hp
        rcases List.mem_map.mp hp with ⟨i, _, rfl⟩
        rfl

/-- C1 witness: the amended theorem applied at the scenario — the entry
labelled 2024-12-30 carries the sum of the records in that bin, and
2025-01-06 is bounded below by its own bucket label plus nothing
(instantiating the greatest-Monday bound at w = 2024-12-30). -/
theorem weekly_attribution_previous_monday_witness :
    (8 : ℚ) = sumHours (scenarioRecords.filter
        (fun r => bucketLabel r.date = daysFromCivil 2024 12 30)) ∧
    daysFromCivil 2024 12 30 ≤ bucketLabel (daysFromCivil 2025 1 6) :=
  ⟨weekly_attribution_previous_monday.2.1 scenarioRecords
      (daysFromCivil 2024 12 30, 8) (by decide),
   (weekly_attribution_previous_monday.1 (daysFromCivil 2025 1 6)).2.2.2
      (daysFromCivil 2024 12 30) (by decide) (by decide)⟩

/-- C2 counterexample: with records only in the weeks labelled 2024-12-30
and 2025-01-20, the series still contains entries for the two empty weeks
in between, with sum 0 — gaps are zero-filled, not omitted. -/
theorem gap_weeks_zero_filled :
    weeklySeries gapRecords
      = [(daysFromCivil 2024 12 30, 1), (daysFromCivil 2025 1 6, 0),
         (daysFromCivil 2025 1 13, 0), (daysFromCivil 2025 1 20, 2)] ∧
    (daysFromCivil 2025 1 6, (0 : ℚ)) ∈ weeklySeries gapRecords ∧
    gapRecords.filter (fun r => bucketLabel r.date = daysFromCivil 2025 1 6)
      = [] := by
  refine ⟨by decide, by decide, by decide⟩

/-- C2 (amended): for a non-empty dataset the weekly series is non-empty,
strictly ascending in `weekStart`, consists of consecutive weekly bins
7 days apart (so weeks with no records inside the span do appear,
zero-filled), and every record's week has an entry. -/
theorem weeklySeries_consecutive_sorted (rs : List HourRecord)
    (h : rs ≠ []) :
    (weeklySeries rs).Pairwise (fun a b => a.1 < b.1) ∧
    (weeklySeries rs).Chain' (fun a b => b.1 = a.1 + 7) ∧
    weeklySeries rs ≠ [] ∧
    (∀ r ∈ rs, bucketLabel r.date ∈ (weeklySeries rs).map Prod.fst) := by
  cases rs with
  | nil => exact absurd rfl h
  | cons r rest =>
      rw [weeklySeries_cons]
      refine ⟨?_, ?_, ?_, ?_⟩
      · refine List.Pairwise.map _ ?_ (List.pairwise_lt_range _)
        intro a b hab
        simp only
        omega
      · rw [List.chain'_map]
        refine (List.chain'_range_succ _ _).mpr ?_
        intro m _
        simp only
        omega
      · intro hempty
        have := congrArg List.length hempty
        simp at this
      · intro x hx
        have hmod : ∀ y, (y = bucketLabel r.date ∨ y ∈ weekLabels rest) →
            y % 7 = 4 := by
          intro y hy
          rcases hy with hy | hy
          · exact hy ▸ bucketLabel_isMonday r.date
          · exact mem_weekLabels_isMonday rest y hy
        have hxmem : bucketLabel x.date = bucketLabel r.date ∨
            bucketLabel x.date ∈ weekLabels rest := by
          rcases List.mem_cons.mp hx with hxx | hxx
          · exact Or.inl (hxx ▸ rfl)
          · exact Or.inr (List.mem_map.mpr ⟨x, hxx, rfl⟩)
        rcases mem_label_range (bucketLabel r.date) (weekLabels rest)
          (bucketLabel x.date) hxmem hmod with ⟨i, hi, hlab⟩
        rw [List.map_map]
        exact List.mem_map.mpr ⟨i, List.mem_range.mpr hi, hlab.symm⟩

/-- C2 witness: the amended structural theorem applied to the concrete
gap dataset. -/
theorem weeklySeries_consecutive_sorted_witness :
    gapRecords ≠ [] ∧ weeklySeries gapRecords ≠ [] :=
  ⟨by decide, (weeklySeries_consecutive_sorted gapRecords (by decide)).2.2.1⟩

/-! ## Dashboard-level claims -/

lemma filterMap_id_map_some (xs : List (List HourRecord)) :
    (xs.map some).filterMap id = xs := by
  induction xs with
  | nil => rfl
  | cons a l ih => simp [List.filterMap_cons, ih]

lemma filterMap_units (xs ys : List (List HourRecord)) :
    (xs.map some ++ none :: ys.map some).filterMap id = xs ++ ys := by
  rw [List.filterMap_append, filterMap_id_map_some, List.filterMap_cons]
  simp [filterMap_id_map_some]

/-- C5: with one unreadable unit among otherwise valid units, the dashboard
skips it and continues: the pipeline is total (no failure escapes), and the
resulting report is computed from exactly the valid units' records — `none`
only in the normal "no valid data" case when the valid units hold no
records at all. -/
theorem corrupt_unit_skipped (xs ys : List (List HourRecord)) :
    showDashboard (xs.map some ++ none :: ys.map some)
      = if (xs ++ ys).flatten.isEmpty then none
        else some (assembleReport (xs ++ ys).flatten) := by
  unfold showDashboard
  have hne : (xs.map some ++ none :: ys.map some).isEmpty = false := by
    cases xs <;> simp
  rw [hne]
  simp only [Bool.false_eq_true, if_false, filterMap_units,
    filter_nonempty_isEmpty, filter_nonempty_flatten]

/-- C6 counterexample: for empty input — no storage units, or units
contributing zero records — the dashboard produces no report at all (the
code shows a "No Data" box and returns early), not an empty
`AggregateReport`. -/
theorem empty_input_no_report :
    showDashboard [] = none ∧ showDashboard [some [], some []] = none ∧
    showDashboard [] ≠ some ⟨0, [], [], []⟩ := by
  refine ⟨rfl, rfl, by decide⟩

lemma allData_nil_of_trivial (units : List (Option (List HourRecord)))
    (h : ∀ u ∈ units, u = none ∨ u = some []) :
    (units.filterMap id).filter (fun df => !df.isEmpty) = [] := by
  induction units with
  | nil => rfl
  | cons u rest ih =>
      have hrest := ih (fun x hx => h x (List.mem_cons_of_mem u hx))
      rcases h u (List.mem_cons_self u rest) with hu | hu
      · subst hu
        simpa [List.filterMap_cons] using hrest
      · subst hu
        simpa [List.filterMap_cons, List.filter_cons] using hrest

/-- C6 (amended): when every unit is corrupt or contributes zero records,
the dashboard takes an early "No Data" return and yields no report
(`none`) instead of an empty `AggregateReport`; the aggregation
functions themselves, applied to an empty merged dataset, do produce the
well-defined empty outputs (`totalHours = 0`, empty mappings, empty
series). -/
theorem empty_input_dashboard_returns_none
    (units : List (Option (List HourRecord)))
    (h : ∀ u ∈ units, u = none ∨ u = some []) :
    showDashboard units = none ∧
    assembleReport [] = ⟨0, [], [], []⟩ := by
  constructor
  · cases units with
    | nil => rfl
    | cons u rest =>
        unfold showDashboard
        simp only [List.isEmpty_cons, Bool.false_eq_true, if_false,
          allData_nil_of_trivial (u :: rest) h, List.isEmpty_nil, if_true]
  · rfl

/-- C6 witness: the amended theorem applied to a concrete listing holding
one empty unit and one corrupt unit. -/
theorem empty_input_dashboard_returns_none_witness :
    showDashboard [some [], none] = none :=
  (empty_input_dashboard_returns_none [some [], none] (by decide)).1

lemma groupSums_keys_sorted (key : HourRecord → String)
    (rs : List HourRecord) :
    ((groupSums key rs).map Prod.fst).Pairwise (· < ·) := by
  unfold groupSums
  rw [List.map_map]
  have hid : (Prod.fst ∘ fun k =>
      (k, sumHours (rs.filter (fun r => key r = k)))) = id := rfl
  rw [hid, List.map_id]
  have hs := List.sorted_insertionSort (· ≤ ·) (rs.map key).dedup
  have hn := groupSums_keys_nodup key rs
  exact (List.Pairwise.and hs hn).imp
    (fun hab => lt_of_le_of_ne hab.1 hab.2)

/-- C8: for a fixed storage snapshot the pipeline is a pure function — two
passes yield identical `AggregateReport` values — and the grouped views are
keyed by value: their key columns are strictly ascending, independent of
record insertion order. -/
theorem dashboard_deterministic (units : List (Option (List HourRecord))) :
    showDashboard units = showDashboard units ∧
    (∀ rs : List HourRecord,
      ((hoursByPerson rs).map Prod.fst).Pairwise (· < ·) ∧
      ((hoursBySubject rs).map Prod.fst).Pairwise (· < ·)) :=
  ⟨rfl, fun rs => ⟨groupSums_keys_sorted HourRecord.person rs,
    groupSums_keys_sorted HourRecord.subject rs⟩⟩

/-! ## The `log_hours` operation

Python string primitives are modelled structurally over `List Char`. -/

/-- The characters Python's `str.strip()` removes. -/
def pyIsSpace (c : Char) : Bool :=
  c == ' ' || c == '\t' || c == '\n' || c == '\r' || c == '\x0b' || c == '\x0c'

/-- Python `s.strip()`. -/
def pyStrip (s : String) : String :=
  String.mk (((s.toList.dropWhile pyIsSpace).reverse.dropWhile pyIsSpace).reverse)

/-- Split a character list on a separator character, Python
`s.split(sep)` for a one-character separator. -/
def splitOnChar (sep : Char) : List Char → List (List Char)
  | [] => [[]]
  | c :: rest =>
      let r := splitOnChar sep rest
      if c = sep then [] :: r
      else
        match r with
        | [] => [[c]]
        | g :: gs => (c :: g) :: gs

/-- Numeric value of a digit string. -/
def digitsToNat (cs : List Char) : Nat :=
  cs.foldl (fun a c => a * 10 + (c.toNat - 48)) 0

/-- Decimal rendering of a natural number (structural, fuel on the
number itself). -/
def natDigitsAux : Nat → Nat → List Char
  | _, 0 => []
  | n, fuel + 1 =>
      if n < 10 then [Nat.digitChar n]
      else natDigitsAux (n / 10) fuel ++ [Nat.digitChar (n % 10)]

/-- Decimal rendering of a natural number as a string. -/
def natToString (n : Nat) : String :=
  String.mk (natDigitsAux n (n + 1))

/-- The CSV header row `['name', 'date', 'hours', 'subject']`. -/
def CSV_HEADER : List String := ["name", "date", "hours", "subject"]

/-- Proleptic-Gregorian leap-year rule, as `datetime` applies it. -/
def isLeapYear (y : Nat) : Bool :=
  (y % 4 == 0 && y % 100 != 0) || y % 400 == 0

/-- Days in a month, as `datetime` validates day-of-month. -/
def daysInMonth (y m : Nat) : Nat :=
  if m = 2 then (if isLeapYear y then 29 else 28)
  else if m = 4 ∨ m = 6 ∨ m = 9 ∨ m = 11 then 30
  else 31

/-- A calendar date as `datetime.strptime` produces it. -/
structure CivilDate where
  year : Nat
  month : Nat
  day : Nat
deriving DecidableEq, Repr

/-- `%d` of `strptime`: one or two digits, value 1–31. -/
def parseDayField (cs : List Char) : Option Nat :=
  if (cs.length = 1 ∨ cs.length = 2) ∧ cs.all Char.isDigit then
    let v := digitsToNat cs
    if 1 ≤ v ∧ v ≤ 31 then some v else none
  else none

/-- `%m` of `strptime`: one or two digits, value 1–12. -/
def parseMonthField (cs : List Char) : Option Nat :=
  if (cs.length = 1 ∨ cs.length = 2) ∧ cs.all Char.isDigit then
    let v := digitsToNat cs
    if 1 ≤ v ∧ v ≤ 12 then some v else none
  else none

/-- `%Y` of `strptime`: exactly four digits, and `datetime` requires
year ≥ 1. -/
def parseYearField (cs : List Char) : Option Nat :=
  if cs.length = 4 ∧ cs.all Char.isDigit then
    let v := digitsToNat cs
    if 1 ≤ v then some v else none
  else none

/-- `datetime.strptime(date_str, "%d-%m-%Y")`: day, month and year fields
separated by literal dashes, whole string consumed, then calendar
validation of the day against the month. -/
def parseDate (s : String) : Option CivilDate :=
  match splitOnChar '-' s.toList with
  | [ds, ms, ys] =>
      match parseDayField ds, parseMonthField ms, parseYearField ys with
      | some d, some m, some y =>
          if d ≤ daysInMonth y m then some ⟨y, m, d⟩ else none
      | _, _, _ => none
  | _ => none

/-- Zero-padding to two digits, `%m` / `%d` of `strftime`. -/
def pad2 (n : Nat) : String :=
  if n < 10 then "0" ++ natToString n else natToString n

/-- `date_obj.strftime("%Y-%m-%d")` (the year is rendered unpadded, as
glibc does). -/
def formatDate (d : CivilDate) : String :=
  natToString d.year ++ "-" ++ pad2 d.month ++ "-" ++ pad2 d.day

/-- Result of a Python `float()` parse: a finite value (kept exact here,
where Python would round to the nearest binary64), `nan`, or a signed
infinity. -/
inductive PyFloat where
  | num : ℚ → PyFloat
  | nan : PyFloat
  | inf : PyFloat
  | ninf : PyFloat
deriving DecidableEq, Repr

/-- Mantissa of a float literal: `digits [. digits*]` or `. digits`,
returning its value and the remaining input. -/
def parseMantissa (cs : List Char) : Option (ℚ × List Char) :=
  let ip := cs.takeWhile Char.isDigit
  let rest := cs.dropWhile Char.isDigit
  match rest with
  | '.' :: rest2 =>
      let fp := rest2.takeWhile Char.isDigit
      let rest3 := rest2.dropWhile Char.isDigit
      if ip.isEmpty && fp.isEmpty then none
      else some ((digitsToNat ip : ℚ)
        + (digitsToNat fp : ℚ) / ((10 : ℚ) ^ fp.length), rest3)
  | _ => if ip.isEmpty then none else some ((digitsToNat ip : ℚ), rest)

/-- Exponent part following `e`/`E`: optional sign then digits, which must
exhaust the input. -/
def parseExpPart (m : ℚ) (r : List Char) : Option ℚ :=
  let sgnr : Int × List Char :=
    match r with
    | '+' :: t => (1, t)
    | '-' :: t => (-1, t)
    | _ => (1, r)
  let ds := sgnr.2.takeWhile Char.isDigit
  let r3 := sgnr.2.dropWhile Char.isDigit
  if ds.isEmpty || !r3.isEmpty then none
  else some (m * (10 : ℚ) ^ (sgnr.1 * (digitsToNat ds : Int)))

/-- An unsigned float literal: mantissa with optional exponent. -/
def parseNumeric (cs : List Char) : Option ℚ :=
  match parseMantissa cs with
  | none => none
  | some (m, rest) =>
      match rest with
      | [] => some m
      | 'e' :: r => parseExpPart m r
      | 'E' :: r => parseExpPart m r
      | _ => none

/-- Python `float(s)` on an already-stripped string: optional sign, then a
decimal literal or the words inf/infinity/nan (case-insensitive).
Not modelled: PEP 515 underscore digit separators. -/
def pyFloat (s : String) : Option PyFloat :=
  let cs := s.toList
  let sgncs : Bool × List Char :=
    match cs with
    | '+' :: t => (true, t)
    | '-' :: t => (false, t)
    | _ => (true, cs)
  let lower := sgncs.2.map Char.toLower
  if lower = "inf".toList ∨ lower = "infinity".toList then
    some (if sgncs.1 then PyFloat.inf else PyFloat.ninf)
  else if lower = "nan".toList then some PyFloat.nan
  else
    match parseNumeric sgncs.2 with
    | some q => some (PyFloat.num (if sgncs.1 then q else -q))
    | none => none

/-- The `hours <= 0` rejection test under float comparison semantics:
NaN is not `<= 0`, so a NaN value passes the guard. -/
def pyLeZero : PyFloat → Bool
  | PyFloat.num q => decide (q ≤ 0)
  | PyFloat.nan => false
  | PyFloat.inf => false
  | PyFloat.ninf => true

/-- Rendering of the hours value written back to the CSV (`str(float)`);
abstracted as the rational's literal — no claim depends on this
rendering. -/
def pyFloatStr : PyFloat → String
  | PyFloat.num q => toString q
  | PyFloat.nan => "nan"
  | PyFloat.inf => "inf"
  | PyFloat.ninf => "-inf"

/-- `get_employee_filename` without the directory prefix: NFD
normalisation followed by ASCII re-encoding with `errors='ignore'` is
modelled as dropping non-ASCII code points; then strip, spaces to
underscores, lowercase, suffix. -/
def get_employee_filename (name : String) : String :=
  let ascii := name.toList.filter (fun c => c.toNat < 128)
  let stripped := ((ascii.dropWhile pyIsSpace).reverse.dropWhile pyIsSpace).reverse
  let replaced := stripped.map (fun c => if c = ' ' then '_' else c)
  String.mk (replaced.map Char.toLower) ++ "_hours.csv"

/-- The data folder: file name → rows of that CSV file, `none` when the
file does not exist. -/
def FileStore := String → Option (List (List String))

/-- The state before any file has been written. -/
def emptyStore : FileStore := fun _ => none

/-- Writing one file of the store. -/
def setFile (fs : FileStore) (f : String) (rows : List (List String)) :
    FileStore :=
  fun g => if g = f then some rows else fs g

/-- `HourTrackerApp.log_hours`: read the four form fields — name, date and
hours stripped, the subject combobox value used as-is — validate them, and
on success append one row to the employee's file, preceded by the header
exactly when the file did not exist; on any validation failure return with
every file unchanged.  (The `IOError` dialog path is outside the model:
writes succeed.) -/
def log_hours (fs : FileStore) (nameRaw dateRaw hoursRaw subject : String) :
    FileStore :=
  let name := pyStrip nameRaw
  let date_str := pyStrip dateRaw
  let hours_str := pyStrip hoursRaw
  if name = "" ∨ date_str = "" ∨ hours_str = "" ∨ subject = "" then fs
  else
    match parseDate date_str with
    | none => fs
    | some d =>
        match pyFloat hours_str with
        | none => fs
        | some h =>
            if pyLeZero h then fs
            else
              let filename := get_employee_filename name
              let row := [name, formatDate d, pyFloatStr h, subject]
              match fs filename with
              | none => setFile fs filename [CSV_HEADER, row]
              | some rows => setFile fs filename (rows ++ [row])

/-- The validation predicate `log_hours` actually enforces, mirroring its
control flow. -/
def log_accepts (nameRaw dateRaw hoursRaw subject : String) : Bool :=
  let name := pyStrip nameRaw
  let date_str := pyStrip dateRaw
  let hours_str := pyStrip hoursRaw
  if name = "" ∨ date_str = "" ∨ hours_str = "" ∨ subject = "" then false
  else
    match parseDate date_str with
    | none => false
    | some _ =>
        match pyFloat hours_str with
        | none => false
        | some h => !pyLeZero h

/-! ## Behaviour of `log_hours` -/

lemma setFile_get (fs : FileStore) (f : String) (rows : List (List String)) :
    setFile fs f rows f = some rows := by
  simp [setFile]

lemma setFile_get_ne (fs : FileStore) (f g : String)
    (rows : List (List String)) (h : g ≠ f) : setFile fs f rows g = fs g := by
  simp [setFile, h]

lemma dash_mem_formatDate (d : CivilDate) : '-' ∈ (formatDate d).data := by
  unfold formatDate
  simp only [String.data_append]
  exact List.mem_append.mpr (Or.inl (List.mem_append.mpr (Or.inr (by decide))))

lemma formatDate_ne_date (d : CivilDate) : formatDate d ≠ "date" := by
  intro h
  have hm := dash_mem_formatDate d
  rw [h] at hm
  exact absurd hm (by decide)

lemma row_ne_header (nm hs sb : String) (d : CivilDate) :
    [nm, formatDate d, hs, sb] ≠ CSV_HEADER := by
  intro h
  simp only [CSV_HEADER, List.cons.injEq, and_true] at h
  exact formatDate_ne_date d h.2.1

/-- A rejected submission leaves the store untouched. -/
lemma log_hours_of_not_accepts (fs : FileStore)
    (nameRaw dateRaw hoursRaw subject : String)
    (hacc : log_accepts nameRaw dateRaw hoursRaw subject = false) :
    log_hours fs nameRaw dateRaw hoursRaw subject = fs := by
  unfold log_hours
  unfold log_accepts at hacc
  by_cases h1 : pyStrip nameRaw = "" ∨ pyStrip dateRaw = "" ∨
      pyStrip hoursRaw = "" ∨ subject = ""
  · rw [if_pos h1]
  · rw [if_neg h1]
    rw [if_neg h1] at hacc
    cases hd : parseDate (pyStrip dateRaw) with
    | none => rfl
    | some d =>
        rw [hd] at hacc
        dsimp only at hacc ⊢
        cases hf : pyFloat (pyStrip hoursRaw) with
        | none => rfl
        | some h =>
            rw [hf] at hacc
            dsimp only at hacc ⊢
            cases hz : pyLeZero h with
            | true => simp [hz]
            | false => rw [hz] at hacc; simp at hacc

/-- An accepted submission appends exactly one row to the employee file,
preceded by the header exactly when the file was absent. -/
lemma log_hours_success_shape (fs : FileStore)
    (nameRaw dateRaw hoursRaw subject : String)
    (hacc : log_accepts nameRaw dateRaw hoursRaw subject = true) :
    ∃ dt h, parseDate (pyStrip dateRaw) = some dt ∧
      pyFloat (pyStrip hoursRaw) = some h ∧
      log_hours fs nameRaw dateRaw hoursRaw subject
        = setFile fs (get_employee_filename (pyStrip nameRaw))
            ((match fs (get_employee_filename (pyStrip nameRaw)) with
              | none => [CSV_HEADER]
              | some rows => rows)
              ++ [[pyStrip nameRaw, formatDate dt, pyFloatStr h, subject]]) := by
  unfold log_hours
  unfold log_accepts at hacc
  by_cases h1 : pyStrip nameRaw = "" ∨ pyStrip dateRaw = "" ∨
      pyStrip hoursRaw = "" ∨ subject = ""
  · rw [if_pos h1] at hacc; cases hacc
  · rw [if_neg h1]
    rw [if_neg h1] at hacc
    cases hd : parseDate (pyStrip dateRaw) with
    | none => rw [hd] at hacc; cases hacc
    | some d =>
        rw [hd] at hacc
        dsimp only at hacc ⊢
        cases hf : pyFloat (pyStrip hoursRaw) with
        | none => rw [hf] at hacc; cases hacc
        | some h =>
            rw [hf] at hacc
            dsimp only at hacc ⊢
            cases hz : pyLeZero h with
            | true => rw [hz] at hacc; simp at hacc
            | false =>
                refine ⟨d, h, rfl, rfl, ?_⟩
                simp only [hz, Bool.false_eq_true, if_false]
                cases hstore : fs (get_employee_filename (pyStrip nameRaw)) with
                | none => rfl
                | some rows => rfl

/-- C9 counterexample: the code does not strip the subject before the
emptiness check and accepts `float('nan')` although NaN is not `> 0`; with
subject `" "` (empty after trimming) or hours `"nan"` a row is written
where the claim requires no write. -/
theorem log_hours_writes_despite_invalid_fields :
    (pyStrip " " = "" ∧
      log_hours emptyStore "Alice" "06-01-2025" "2" " "
        (get_employee_filename "Alice") ≠ none) ∧
    (pyFloat "nan" = some PyFloat.nan ∧
      log_hours emptyStore "Bob" "06-01-2025" "nan" "Meetings"
        (get_employee_filename "Bob") ≠ none) :=
  ⟨⟨by decide, by decide⟩, ⟨by decide, by decide⟩⟩

/-- C9 (amended): `log_hours` writes iff name, date and hours are
non-empty after stripping, the *unstripped* subject is non-empty, the date
parses as dd-mm-yyyy, and the hours string parses as a float that is not
`<= 0` under float comparison (so NaN is accepted); on validation failure
every file is left unchanged. -/
theorem log_hours_validation (fs : FileStore)
    (nameRaw dateRaw hoursRaw subject : String) :
    (log_accepts nameRaw dateRaw hoursRaw subject = false →
      log_hours fs nameRaw dateRaw hoursRaw subject = fs) ∧
    (log_accepts nameRaw dateRaw hoursRaw subject = true →
      log_hours fs nameRaw dateRaw hoursRaw subject
          (get_employee_filename (pyStrip nameRaw))
        ≠ fs (get_employee_filename (pyStrip nameRaw))) := by
  refine ⟨log_hours_of_not_accepts fs nameRaw dateRaw hoursRaw subject, ?_⟩
  intro hacc
  rcases log_hours_success_shape fs nameRaw dateRaw hoursRaw subject hacc
    with ⟨dt, h, _, _, heq⟩
  rw [heq, setFile_get]
  cases hstore : fs (get_employee_filename (pyStrip nameRaw)) with
  | none => simp
  | some rows =>
      dsimp only
      intro hx
      injection hx with hx
      have := congrArg List.length hx
      simp at this

/-- C9 witness: a fully valid submission is accepted and changes the
employee file. -/
theorem log_hours_validation_witness :
    log_accepts "Alice" "06-01-2025" "2" "Meetings" = true ∧
    log_hours emptyStore "Alice" "06-01-2025" "2" "Meetings"
        (get_employee_filename (pyStrip "Alice"))
      ≠ emptyStore (get_employee_filename (pyStrip "Alice")) :=
  ⟨by decide,
   (log_hours_validation emptyStore "Alice" "06-01-2025" "2" "Meetings").2
     (by decide)⟩

/-- Stores in which every present file is one header row followed only by
well-formed data rows. -/
def goodStore (fs : FileStore) : Prop :=
  ∀ f, fs f = none ∨ ∃ rows, fs f = some (CSV_HEADER :: rows) ∧
    ∀ r ∈ rows, r.length = 4 ∧ r ≠ CSV_HEADER

lemma emptyStore_good : goodStore emptyStore := fun _ => Or.inl rfl

lemma log_hours_preserves_goodStore (fs : FileStore)
    (a b c d : String) (hg : goodStore fs) :
    goodStore (log_hours fs a b c d) := by
  cases hacc : log_accepts a b c d with
  | false => rw [log_hours_of_not_accepts fs a b c d hacc]; exact hg
  | true =>
      rcases log_hours_success_shape fs a b c d hacc with ⟨dt, h, _, _, heq⟩
      rw [heq]
      intro f
      by_cases hf : f = get_employee_filename (pyStrip a)
      · subst hf
        rw [setFile_get]
        refine Or.inr ?_
        cases hstore : fs (get_employee_filename (pyStrip a)) with
        | none =>
            refine ⟨[[pyStrip a, formatDate dt, pyFloatStr h, d]], rfl, ?_⟩
            intro r hr
            rcases List.mem_singleton.mp hr with rfl
            exact ⟨rfl, row_ne_header _ _ _ dt⟩
        | some rows =>
            rcases hg (get_employee_filename (pyStrip a)) with hnone | hgood
            · rw [hstore] at hnone; cases hnone
            · rcases hgood with ⟨rows0, heq0, hall⟩
              rw [hstore] at heq0
              injection heq0 with heq0
              subst heq0
              refine ⟨rows0 ++ [[pyStrip a, formatDate dt, pyFloatStr h, d]],
                rfl, ?_⟩
              intro r hr
              rcases List.mem_append.mp hr with hr | hr
              · exact hall r hr
              · rcases List.mem_singleton.mp hr with rfl
                exact ⟨rfl, row_ne_header _ _ _ dt⟩
      · rw [setFile_get_ne _ _ _ _ hf]
        exact hg f

/-- A sequence of `log_hours` submissions applied in order. -/
def runLog (fs : FileStore)
    (calls : List (String × String × String × String)) : FileStore :=
  calls.foldl (fun st c => log_hours st c.1 c.2.1 c.2.2.1 c.2.2.2) fs

lemma runLog_goodStore_aux
    (calls : List (String × String × String × String)) :
    ∀ fs, goodStore fs → goodStore (runLog fs calls) := by
  induction calls with
  | nil => intro fs h; exact h
  | cons c rest ih =>
      intro fs h
      exact ih _ (log_hours_preserves_goodStore fs _ _ _ _ h)

/-- C10: a successful `log_hours` call appends exactly one data row, with
the date re-serialised as YYYY-MM-DD, prepending the header exactly when
the file did not exist, and touching no other file; consequently any store
grown from nothing by `log_hours` alone has every present file equal to
one header row followed only by data rows. -/
theorem log_hours_append_one_row (fs : FileStore)
    (nameRaw dateRaw hoursRaw subject : String)
    (hacc : log_accepts nameRaw dateRaw hoursRaw subject = true) :
    (∃ dt h, parseDate (pyStrip dateRaw) = some dt ∧
      pyFloat (pyStrip hoursRaw) = some h ∧
      log_hours fs nameRaw dateRaw hoursRaw subject
          (get_employee_filename (pyStrip nameRaw))
        = some ((match fs (get_employee_filename (pyStrip nameRaw)) with
                 | none => [CSV_HEADER]
                 | some rows => rows)
            ++ [[pyStrip nameRaw, formatDate dt, pyFloatStr h, subject]]) ∧
      ∀ g, g ≠ get_employee_filename (pyStrip nameRaw) →
        log_hours fs nameRaw dateRaw hoursRaw subject g = fs g) ∧
    (∀ calls f, runLog emptyStore calls f = none ∨
      ∃ rows, runLog emptyStore calls f = some (CSV_HEADER :: rows) ∧
        ∀ r ∈ rows, r.length = 4 ∧ r ≠ CSV_HEADER) := by
  constructor
  · rcases log_hours_success_shape fs nameRaw dateRaw hoursRaw subject hacc
      with ⟨dt, h, hdt, hh, heq⟩
    exact ⟨dt, h, hdt, hh, by rw [heq, setFile_get],
      fun g hg => by rw [heq, setFile_get_ne _ _ _ _ hg]⟩
  · intro calls f
    exact runLog_goodStore_aux calls emptyStore emptyStore_good f

/-- C10 witness: the invariant read back after one concrete successful
submission. -/
theorem log_hours_append_one_row_witness :
    runLog emptyStore [("Alice", "06-01-2025", "2", "Meetings")]
        (get_employee_filename "alice") = none ∨
    ∃ rows, runLog emptyStore [("Alice", "06-01-2025", "2", "Meetings")]
        (get_employee_filename "alice") = some (CSV_HEADER :: rows) ∧
      ∀ r ∈ rows, r.length = 4 ∧ r ≠ CSV_HEADER :=
  (log_hours_append_one_row emptyStore "Alice" "06-01-2025" "2" "Meetings"
    (by decide)).2 [("Alice", "06-01-2025", "2", "Meetings")]
    (get_employee_filename "alice")

end HourTracking
